import Mathlib

/-!
Verification of the media upload/retrieval/deletion handlers of
`cmd/media.go` (listmonk). The Go handlers are shallowly embedded:
the blob store (`app.media`) is an association list from storage keys to
blobs, the metadata store (`app.core` media tables) is a list of records,
and every fallible external call (blob put, metadata insert, random
generation, blob delete) is driven by an explicit environment of
failure switches so that every failure path of the Go code is reachable.
-/

set_option autoImplicit false

namespace Listmonk

/-- Constant `thumbnailSize = 250` from `cmd/media.go`. -/
def thumbnailSize : Nat := 250

/-- Constant `thumbPrefix = "thumb_"` from `cmd/media.go` (renamed here). -/
def thumbPre : String := "thumb_"

/-- `vectorExts = []string{"svg"}` from `cmd/media.go`. -/
def vectorExts : List String := ["svg"]

/-- `imageExts = []string{"gif", "png", "jpg", "jpeg"}` from `cmd/media.go`. -/
def imageExts : List String := ["gif", "png", "jpg", "jpeg"]

/-- Modelled from the spec: helper `inArray` (defined outside `src/`) is the
membership test used for the extension allowlist ("the extension must appear
in it"). -/
def inArray (needle : String) (stack : List String) : Bool :=
  stack.contains needle

/-- File content, abstracting the uploaded bytes: either bytes that decode as
a raster image of some source format and pixel dimensions, or undecodable
raw bytes. -/
inductive FileContent where
  | image (format : String) (w : Nat) (h : Nat)
  | blob (bytes : String)
  deriving DecidableEq, Repr

/-- The multipart file received by the handler: client filename, the
client-declared Content-Type header, and the content. -/
structure UploadFile where
  filename : String
  contentType : String
  content : FileContent
  deriving DecidableEq, Repr

/-- A stored blob: the content type passed to `Put` and the bytes. -/
structure Blob where
  contentType : String
  content : FileContent
  deriving DecidableEq, Repr

/-- The blob store (`app.media`): an association list from keys to blobs. -/
def BlobStore : Type := List (String × Blob)

instance : DecidableEq BlobStore := by
  unfold BlobStore
  infer_instance

/-- Lookup of a key in the blob store. -/
def blookup (st : BlobStore) (k : String) : Option Blob :=
  match st with
  | [] => none
  | (k', b) :: rest => if k' = k then some b else blookup rest k

/-- Removal of a key from the blob store (deleting a missing key is a no-op,
as the BlobStore port requires). -/
def bdelete (st : BlobStore) (k : String) : BlobStore :=
  match st with
  | [] => []
  | (k', b) :: rest => if k' = k then bdelete rest k else (k', b) :: bdelete rest k

/-- `app.media.Put`: stores the blob under the key, overwriting any previous
blob with that key, and returns the stored key unchanged (the filesystem
backend stores under the requested key). -/
def bput (st : BlobStore) (k ct : String) (c : FileContent) : BlobStore :=
  (k, ⟨ct, c⟩) :: bdelete st k

/-- A persisted media record (`models.Media`): id, filename, thumbnail
filename, content type, width/height metadata and provider. -/
structure MediaObject where
  id : Nat
  filename : String
  thumbnailFilename : String
  contentType : String
  meta : List (String × Nat)
  provider : String
  deriving DecidableEq, Repr

/-- The metadata store (media table): records plus the next id to assign. -/
structure MetaStore where
  records : List MediaObject
  nextId : Nat
  deriving DecidableEq, Repr

/-- Modelled from the spec: `core.GetMedia(0, "", fname, …)` (outside `src/`)
looks a record up by exact filename, `NotFound` when absent. -/
def getMediaByFilename (st : MetaStore) (f : String) : Option MediaObject :=
  st.records.find? (fun m => m.filename == f)

/-- Modelled from the spec: `core.GetMedia(id, "", "", …)` (outside `src/`)
looks a record up by id, `NotFound` when absent. -/
def getMediaById (st : MetaStore) (id : Int) : Option MediaObject :=
  st.records.find? (fun m => (m.id : Int) == id)

/-- Modelled from the spec: `core.InsertMedia` (outside `src/`) inserts a
record; the store enforces uniqueness of `filename` ("uniqueness semantics on
filename", the authoritative enforcement of invariant I1), so inserting a
duplicate filename fails (`none`). -/
def insertMediaRec (st : MetaStore) (f tf ct : String) (meta : List (String × Nat))
    (provider : String) : Option (MediaObject × MetaStore) :=
  if (getMediaByFilename st f).isSome then none
  else
    let m : MediaObject := ⟨st.nextId, f, tf, ct, meta, provider⟩
    some (m, ⟨m :: st.records, st.nextId + 1⟩)

/-- Modelled from the spec: `core.DeleteMedia(id)` (outside `src/`) removes
the record with the given id and returns its filename, `NotFound` when
absent. -/
def deleteMediaRec (st : MetaStore) (id : Int) : Option (String × MetaStore) :=
  match st.records.find? (fun m => (m.id : Int) == id) with
  | none => none
  | some m => some (m.filename, ⟨st.records.filter (fun r => r.id != m.id), st.nextId⟩)

/-- Characters of a string after the last `/` (the final path element);
the whole string when it has no `/`. -/
def afterLastSlash (cs : List Char) : List Char :=
  cs.foldl (fun acc c => if c = '/' then [] else acc ++ [c]) []

/-- Characters after the last `.` of a list, `none` when there is no dot. -/
def afterLastDot? (cs : List Char) : Option (List Char) :=
  cs.foldl (fun acc c => if c = '.' then some [] else acc.map (fun l => l ++ [c])) none

/-- The Go expression
`strings.TrimPrefix(strings.ToLower(filepath.Ext(file.Filename)), ".")`:
the lowercased extension of the final path element, without the dot; empty
when the final element has no dot. -/
def extOf (s : String) : String :=
  match afterLastDot? (afterLastSlash s.toList) with
  | none => ""
  | some cs => String.mk (cs.map Char.toLower)

/-- Modelled from the spec: `makeFilename` (defined outside `src/`) strips
path components from the client-supplied filename, producing a safe storage
key; further character normalization is unspecified and modelled as
identity. -/
def makeFilename (s : String) : String :=
  String.mk (afterLastSlash s.toList)

/-- Modelled from the spec: `appendSuffixToFilename` (defined outside `src/`)
appends `_suffix` before the extension: `report.png` with suffix `abcdef`
becomes `report_abcdef.png`; a name without a dot just gets `_suffix`
appended. -/
def appendSuffixToFilename (name suffix : String) : String :=
  match afterLastDot? name.toList with
  | none => name ++ "_" ++ suffix
  | some extCs =>
      let baseLen := name.length - (extCs.length + 1)
      String.mk (name.toList.take baseLen) ++ "_" ++ suffix ++ "." ++ String.mk extCs

/-- Failure switches and oracle values for the external calls of one request:
whether each blob `Put` and the metadata insert succeed, whether
`generateRandomString` succeeds and the 6-character draw it returns, the set
of keys whose (error-ignored) blob `Delete` fails, and whether the listing
query succeeds. -/
structure Env where
  putOriginalOk : Bool
  putThumbOk : Bool
  insertOk : Bool
  randomOk : Bool
  randomSuffix : String
  deleteFails : List String
  queryOk : Bool
  deriving DecidableEq, Repr

/-- Configuration consumed by the handlers: the extension allowlist
(`app.constants.MediaUpload.Extensions`) and the provider name
(`app.constants.MediaUpload.Provider`). -/
structure Config where
  extensions : List String
  provider : String
  deriving DecidableEq, Repr

instance exceptDecEq {ε α : Type} [DecidableEq ε] [DecidableEq α] :
    DecidableEq (Except ε α) := fun x y =>
  match x, y with
  | Except.ok a, Except.ok b =>
      if h : a = b then isTrue (by rw [h]) else isFalse (by simp [h])
  | Except.error a, Except.error b =>
      if h : a = b then isTrue (by rw [h]) else isFalse (by simp [h])
  | Except.ok _, Except.error _ => isFalse (by simp)
  | Except.error _, Except.ok _ => isFalse (by simp)

/-- Error taxonomy of the handlers. -/
inductive UploadError where
  | unsupportedType
  | randomGenerationFailure
  | storageFailure
  | decodeFailure
  | thumbSaveFailure
  | persistenceFailure
  deriving DecidableEq, Repr

/-- Result and final stores of one upload request. -/
structure UploadOutcome where
  result : Except UploadError MediaObject
  blobs : BlobStore
  media : MetaStore
  deriving DecidableEq

/-- `app.media.Delete` with its error ignored by the caller: the key is
removed unless the environment makes this delete fail, in which case the
store is unchanged (the blob is orphaned). -/
def bdeleteE (env : Env) (st : BlobStore) (k : String) : BlobStore :=
  if env.deleteFails.contains k then st else bdelete st k

/-- The deferred cleanup closure of `handleUploadMedia`: deletes `fName`,
and `thumbfName` as well when it is nonempty. -/
def cleanupBlobs (env : Env) (st : BlobStore) (fName thumbfName : String) : BlobStore :=
  let st1 := bdeleteE env st fName
  if thumbfName = "" then st1 else bdeleteE env st1 thumbfName

/-- `imaging.Resize(img, 250, 0, imaging.Lanczos)` dimension computation:
with height given as 0 the height preserving aspect ratio is
`max 1 (round (250 * srcH / srcW))`; a degenerate source yields the empty
image. `round (a / b)` over naturals is `(2*a + b) / (2*b)`. -/
def resizeDims (srcW srcH : Nat) : Nat × Nat :=
  if srcW = 0 ∨ srcH = 0 then (0, 0)
  else (thumbnailSize, max 1 ((2 * thumbnailSize * srcH + srcW) / (2 * srcW)))

/-- `processImage`: decodes the uploaded bytes (failing on undecodable
content), resizes to width `thumbnailSize` preserving aspect ratio,
re-encodes the thumbnail as PNG, and returns the thumbnail together with the
original image's width and height (`img.Bounds().Max` of the decoded image,
whose origin is 0). PNG encoding to a memory buffer is modelled as
infallible. -/
def processImage (file : UploadFile) : Except UploadError (FileContent × Nat × Nat) :=
  match file.content with
  | FileContent.image _ w h =>
      let d := resizeDims w h
      Except.ok (FileContent.image "png" d.1 d.2, w, h)
  | FileContent.blob _ => Except.error UploadError.decodeFailure

/-- The collision-handling step of `handleUploadMedia` (lines 63–72): a
single `GetMedia` existence check on the sanitized name; when it hits, one
random 6-character suffix is drawn (failing the request when randomness is
unavailable) and appended, with no second existence check. -/
def resolveFilename (env : Env) (ms : MetaStore) (fName : String) :
    Except UploadError String :=
  if (getMediaByFilename ms fName).isSome then
    if env.randomOk then Except.ok (appendSuffixToFilename fName env.randomSuffix)
    else Except.error UploadError.randomGenerationFailure
  else Except.ok fName

/-- Following the spec's words (§4.1), not the code: after appending a
suffix, the existence check is retried on the new candidate, drawing further
suffixes until a candidate is free (the list is the supply of random draws);
`none` when the supply runs out on a still-colliding candidate. -/
def resolveFilenameSpec (ms : MetaStore) (fName : String) :
    List String → Option String
  | [] => if (getMediaByFilename ms fName).isSome then none else some fName
  | s :: rest =>
      if (getMediaByFilename ms fName).isSome then
        resolveFilenameSpec ms (appendSuffixToFilename fName s) rest
      else some fName

/-- The thumbnail step of `handleUploadMedia` (lines 102–123): for raster
extensions, decode/resize/encode and `Put` the thumbnail under
`thumb_ ++ fName` with the client-declared content type; returns the blob
store, the thumbnail filename (empty when no thumbnail was stored), and the
original dimensions. -/
def thumbStage (env : Env) (file : UploadFile) (bs1 : BlobStore)
    (fName contentType : String) (isImage : Bool) :
    Except UploadError (BlobStore × String × Nat × Nat) :=
  if isImage then
    match processImage file with
    | Except.error e => Except.error e
    | Except.ok (tc, w, h) =>
        if env.putThumbOk = false then Except.error UploadError.thumbSaveFailure
        else Except.ok (bput bs1 (thumbPre ++ fName) contentType tc,
          thumbPre ++ fName, w, h)
  else Except.ok (bs1, "", 0, 0)

/-- Lines 74–144 of `handleUploadMedia`, after the name has been resolved:
store the original blob, derive and store the thumbnail for raster
extensions, reuse the original as thumbnail reference for vector extensions,
build the metadata map, insert the record; on any failure after the original
`Put` succeeded, run the deferred cleanup before returning the error. -/
def storeAndRecord (cfg : Config) (env : Env) (bs0 : BlobStore) (ms0 : MetaStore)
    (file : UploadFile) (fName : String) : UploadOutcome :=
  if env.putOriginalOk = false then ⟨Except.error UploadError.storageFailure, bs0, ms0⟩
  else
    let contentType := file.contentType
    let ext := extOf file.filename
    let bs1 := bput bs0 fName contentType file.content
    let isImage := inArray ext imageExts
    match thumbStage env file bs1 fName contentType isImage with
    | Except.error e => ⟨Except.error e, cleanupBlobs env bs1 fName "", ms0⟩
    | Except.ok (bs2, thumbName0, w, h) =>
        let thumbfName := if inArray ext vectorExts then fName else thumbName0
        let meta := if isImage then [("width", w), ("height", h)]
          else ([] : List (String × Nat))
        match (if env.insertOk then
            insertMediaRec ms0 fName thumbfName contentType meta cfg.provider
          else none) with
        | none => ⟨Except.error UploadError.persistenceFailure,
            cleanupBlobs env bs2 fName thumbfName, ms0⟩
        | some (m, ms1) => ⟨Except.ok m, bs2, ms1⟩

/-- `handleUploadMedia` (lines 27–145): extension allowlist check, filename
sanitization and single-shot collision suffixing, then the store-and-record
pipeline. Reading the multipart form is outside the model (the request
carries `file`). -/
def handleUploadMedia (cfg : Config) (env : Env) (bs0 : BlobStore) (ms0 : MetaStore)
    (file : UploadFile) : UploadOutcome :=
  let ext := extOf file.filename
  if inArray "*" cfg.extensions = false ∧ inArray ext cfg.extensions = false then
    ⟨Except.error UploadError.unsupportedType, bs0, ms0⟩
  else
    match resolveFilename env ms0 (makeFilename file.filename) with
    | Except.error e => ⟨Except.error e, bs0, ms0⟩
    | Except.ok fName => storeAndRecord cfg env bs0 ms0 file fName

/-- Errors of the retrieval and deletion handlers. -/
inductive MediaError where
  | invalidID
  | notFound
  | queryFailure
  deriving DecidableEq, Repr

/-- Result and final stores of one deletion request. -/
structure DeleteOutcome where
  result : Except MediaError Bool
  blobs : BlobStore
  media : MetaStore
  deriving DecidableEq

/-- Accumulate a decimal value over digit characters; `none` on the first
non-digit. -/
def decVal (cs : List Char) (acc : Nat) : Option Nat :=
  match cs with
  | [] => some acc
  | c :: rest => if c.isDigit then decVal rest (acc * 10 + (c.toNat - 48)) else none

/-- `strconv.Atoi` with its error discarded, as both handlers call it:
an optional sign followed by at least one digit parses to its value, every
other string yields 0. -/
def atoi (s : String) : Int :=
  match s.toList with
  | [] => 0
  | '+' :: cs =>
      match cs, decVal cs 0 with
      | [], _ => 0
      | _, some n => (n : Int)
      | _, none => 0
  | '-' :: cs =>
      match cs, decVal cs 0 with
      | [], _ => 0
      | _, some n => -(n : Int)
      | _, none => 0
  | cs =>
      match decVal cs 0 with
      | some n => (n : Int)
      | none => 0

/-- `handleDeleteMedia` (lines 185–206): non-positive parsed id is rejected
with `InvalidID` before touching either store; otherwise the metadata record
is removed first (yielding its filename) and then blob deletes are issued
for the filename and `thumb_ ++ filename`, their errors ignored. -/
def handleDeleteMedia (env : Env) (bs0 : BlobStore) (ms0 : MetaStore)
    (idParam : String) : DeleteOutcome :=
  let id := atoi idParam
  if id < 1 then ⟨Except.error MediaError.invalidID, bs0, ms0⟩
  else
    match deleteMediaRec ms0 id with
    | none => ⟨Except.error MediaError.notFound, bs0, ms0⟩
    | some (fname, ms1) =>
        let bs1 := bdeleteE env (bdeleteE env bs0 fname) (thumbPre ++ fname)
        ⟨Except.ok true, bs1, ms1⟩

/-- Whether `small` occurs as a contiguous prefix of `big`. -/
def listIsPre (small big : List Char) : Bool :=
  match small, big with
  | [], _ => true
  | _ :: _, [] => false
  | a :: as, b :: bs => a == b && listIsPre as bs

/-- Whether `small` occurs as a contiguous sublist of `big`. -/
def listHasSub (small big : List Char) : Bool :=
  match big with
  | [] => small.isEmpty
  | _ :: t => listIsPre small big || listHasSub small t

/-- Modelled from the spec: `core.QueryMedia` (outside `src/`) performs a
filtered, paginated listing over the provider's records (text filter
modelled as substring match on the filename), returning the page and the
total count of matching records. -/
def queryMedia (ms : MetaStore) (provider q : String) (offset limit : Nat) :
    List MediaObject × Nat :=
  let all := ms.records.filter
    (fun m => m.provider == provider && listHasSub q.toList m.filename.toList)
  ((all.drop offset).take limit, all.length)

/-- Pagination values produced by `app.paginator.NewFromURL`. -/
structure Paging where
  page : Nat
  perPage : Nat
  offset : Nat
  limit : Nat
  deriving DecidableEq, Repr

/-- Response of `handleGetMedia`: a single record or a page of results. -/
inductive GetResult where
  | one (m : MediaObject)
  | page (results : List MediaObject) (total : Nat) (pg : Nat) (perPage : Nat)
  deriving DecidableEq, Repr

/-- `handleGetMedia` (lines 148–182): when the parsed id is strictly
positive, fetch that single record (`NotFound` when absent); otherwise run
the paginated, filtered listing for the configured provider. -/
def handleGetMedia (provider : String) (env : Env) (ms : MetaStore)
    (idParam : String) (q : String) (pg : Paging) : Except MediaError GetResult :=
  let id := atoi idParam
  if 0 < id then
    match getMediaById ms id with
    | none => Except.error MediaError.notFound
    | some m => Except.ok (GetResult.one m)
  else
    if env.queryOk = false then Except.error MediaError.queryFailure
    else
      let r := queryMedia ms provider q pg.offset pg.limit
      Except.ok (GetResult.page r.1 r.2 pg.page pg.perPage)

/-! ### Concrete fixtures used by witnesses and counterexamples -/

/-- Wildcard allowlist configuration. -/
def cfgStar : Config := ⟨["*"], "fs"⟩

/-- Allowlist restricted to png and jpg. -/
def cfgPngJpg : Config := ⟨["png", "jpg"], "fs"⟩

/-- Environment in which every external call succeeds; the random draw is
`abcdef`. -/
def envOk : Env := ⟨true, true, true, true, "abcdef", [], true⟩

/-- Environment in which the metadata insert fails and everything else
succeeds. -/
def envNoInsert : Env := ⟨true, true, false, true, "abcdef", [], true⟩

/-- An 800×600 PNG upload named `cat.png`. -/
def fileCat : UploadFile := ⟨"cat.png", "image/png", FileContent.image "png" 800 600⟩

/-- A 100×100 GIF upload named `anim.gif` with content type `image/gif`. -/
def fileGif : UploadFile := ⟨"anim.gif", "image/gif", FileContent.image "gif" 100 100⟩

/-- An SVG upload named `logo.svg`. -/
def fileSvg : UploadFile := ⟨"logo.svg", "image/svg+xml", FileContent.blob "svgbytes"⟩

/-- A PDF upload named `notes.pdf`. -/
def filePdf : UploadFile := ⟨"notes.pdf", "application/pdf", FileContent.blob "pdfbytes"⟩

/-- An 800×600 PNG upload named `report.png`. -/
def fileReport : UploadFile := ⟨"report.png", "image/png", FileContent.image "png" 800 600⟩

/-- The empty metadata store. -/
def msEmpty : MetaStore := ⟨[], 1⟩

/-- First upload of `report.png` into empty stores. -/
def outReport1 : UploadOutcome := handleUploadMedia cfgStar envOk [] msEmpty fileReport

/-- Second upload of `report.png` (collides, draws suffix `abcdef`). -/
def outReport2 : UploadOutcome :=
  handleUploadMedia cfgStar envOk outReport1.blobs outReport1.media fileReport

/-- Third upload of `report.png` (collides again, draws `abcdef` again). -/
def outReport3 : UploadOutcome :=
  handleUploadMedia cfgStar envOk outReport2.blobs outReport2.media fileReport

/-- A one-record metadata store holding `cat.png` with id 1. -/
def msCat : MetaStore :=
  ⟨[⟨1, "cat.png", "thumb_cat.png", "image/png", [("width", 800), ("height", 600)], "fs"⟩], 2⟩

/-- A blob store holding `cat.png` and `thumb_cat.png`. -/
def bsCat : BlobStore :=
  [("cat.png", ⟨"image/png", FileContent.image "png" 800 600⟩),
   ("thumb_cat.png", ⟨"image/png", FileContent.image "png" 250 188⟩)]

/-! ### Basic lemmas about the blob store -/

/-- Lookup after deleting a key. -/
theorem blookup_bdelete (st : BlobStore) (k q : String) :
    blookup (bdelete st k) q = if q = k then none else blookup st q := by
  induction st with
  | nil => simp [bdelete, blookup]
  | cons e rest ih =>
      obtain ⟨k', b⟩ := e
      by_cases h1 : k' = k
      · simp only [bdelete, if_pos h1, ih, blookup]
        by_cases h2 : q = k
        · simp [h2]
        · have h3 : ¬ k' = q := fun hh => h2 (by rw [← hh, h1])
          simp [h2, h3]
      · simp only [bdelete, if_neg h1, blookup]
        by_cases h3 : k' = q
        · have h2 : ¬ q = k := fun hh => h1 (by rw [h3, hh])
          simp [h3, h2]
        · simp [h3, ih]

/-- Lookup after putting a blob. -/
theorem blookup_bput (st : BlobStore) (k ct : String) (c : FileContent) (q : String) :
    blookup (bput st k ct c) q =
      if k = q then some ⟨ct, c⟩ else blookup st q := by
  by_cases h : k = q
  · simp [bput, blookup, h]
  · have h' : ¬ q = k := fun hh => h hh.symm
    simp [bput, blookup, h, blookup_bdelete, h']

/-! ### String facts -/

/-- A thumbnail key is never the original key. -/
theorem thumbPre_append_ne (f : String) : thumbPre ++ f ≠ f := by
  intro h
  have hl : (thumbPre ++ f).length = f.length := by rw [h]
  rw [String.length_append] at hl
  have : thumbPre.length = 6 := rfl
  omega

/-- A thumbnail key is never empty. -/
theorem thumbPre_append_ne_empty (f : String) : thumbPre ++ f ≠ "" := by
  intro h
  have hl : (thumbPre ++ f).length = ("" : String).length := by rw [h]
  rw [String.length_append] at hl
  have : thumbPre.length = 6 := rfl
  have : ("" : String).length = 0 := rfl
  omega

/-- A suffixed filename is never empty. -/
theorem appendSuffix_ne_empty (n s : String) : appendSuffixToFilename n s ≠ "" := by
  unfold appendSuffixToFilename
  cases hd : afterLastDot? n.toList with
  | none =>
      intro h
      have h' : n ++ "_" ++ s = "" := h
      have hl : (n ++ "_" ++ s).length = ("" : String).length := by rw [h']
      rw [String.length_append, String.length_append] at hl
      have : ("_" : String).length = 1 := rfl
      have : ("" : String).length = 0 := rfl
      omega
  | some extCs =>
      intro h
      have h' : String.mk (n.toList.take (n.length - (extCs.length + 1))) ++ "_" ++ s
          ++ "." ++ String.mk extCs = "" := h
      have hl : (String.mk (n.toList.take (n.length - (extCs.length + 1))) ++ "_" ++ s
          ++ "." ++ String.mk extCs).length = ("" : String).length := by rw [h']
      rw [String.length_append, String.length_append, String.length_append,
        String.length_append] at hl
      have : ("_" : String).length = 1 := rfl
      have : ("." : String).length = 1 := rfl
      have : ("" : String).length = 0 := rfl
      omega

/-- The vector and raster extension sets are disjoint. -/
theorem vector_not_image (e : String) (h : inArray e vectorExts = true) :
    inArray e imageExts = false := by
  have he : e = "svg" := by
    simpa [inArray, vectorExts, List.contains, eq_comm] using h
  rw [he]
  rfl

/-! ### Cleanup and stage lemmas -/

/-- Lookup after the deferred cleanup closure, when no cleanup delete fails:
the original key is gone, the thumbnail key is gone when one was recorded,
and every other key is untouched. -/
theorem cleanupBlobs_lookup (env : Env) (st : BlobStore) (f tf q : String)
    (hdel : env.deleteFails = []) :
    blookup (cleanupBlobs env st f tf) q =
      if q = f then none
      else if q = tf ∧ tf ≠ "" then none
      else blookup st q := by
  have hE : ∀ (st' : BlobStore) (k : String), bdeleteE env st' k = bdelete st' k := by
    intro st' k
    simp [bdeleteE, hdel]
  unfold cleanupBlobs
  by_cases htf : tf = ""
  · simp only [htf, if_pos rfl, hE]
    by_cases hq : q = f
    · simp [hq, blookup_bdelete]
    · simp [hq, blookup_bdelete]
  · simp only [if_neg htf, hE]
    by_cases hq2 : q = tf
    · simp [hq2, htf, blookup_bdelete]
    · by_cases hq : q = f <;> simp [hq, hq2, blookup_bdelete]

/-- Inversion of a successful metadata insert: the filename was free and the
record is built from the arguments. -/
theorem insertMediaRec_some (st : MetaStore) (f tf ct : String)
    (meta : List (String × Nat)) (p : String) (m : MediaObject) (st' : MetaStore)
    (h : insertMediaRec st f tf ct meta p = some (m, st')) :
    getMediaByFilename st f = none ∧
    m = ⟨st.nextId, f, tf, ct, meta, p⟩ ∧
    st' = ⟨m :: st.records, st.nextId + 1⟩ := by
  unfold insertMediaRec at h
  by_cases hg : (getMediaByFilename st f).isSome
  · rw [if_pos hg] at h
    exact absurd h (by simp)
  · rw [if_neg hg] at h
    simp only [Option.some.injEq, Prod.mk.injEq] at h
    refine ⟨?_, h.1.symm, ?_⟩
    · exact Option.not_isSome_iff_eq_none.mp hg
    · rw [← h.2, ← h.1]

/-- Inversion of the name-resolution step. -/
theorem resolveFilename_ok (env : Env) (ms : MetaStore) (f g : String)
    (h : resolveFilename env ms f = Except.ok g) :
    ((getMediaByFilename ms f).isSome = false ∧ g = f) ∨
    ((getMediaByFilename ms f).isSome = true ∧
      g = appendSuffixToFilename f env.randomSuffix) := by
  unfold resolveFilename at h
  by_cases hg : (getMediaByFilename ms f).isSome
  · rw [if_pos hg] at h
    cases hr : env.randomOk
    · rw [hr] at h
      simp at h
    · simp only [hr, if_pos, Except.ok.injEq] at h
      exact Or.inr ⟨hg, h.symm⟩
  · rw [if_neg hg] at h
    simp only [Except.ok.injEq] at h
    simp only [Bool.not_eq_true] at hg
    exact Or.inl ⟨hg, h.symm⟩

/-- The thumbnail stage does nothing for non-raster extensions. -/
theorem thumbStage_not_image (env : Env) (file : UploadFile) (bs1 : BlobStore)
    (fName ct : String) :
    thumbStage env file bs1 fName ct false = Except.ok (bs1, "", 0, 0) := rfl

/-- Inversion of a successful raster thumbnail stage: the upload decoded to
an image of the returned dimensions, the thumbnail `Put` succeeded, and the
PNG thumbnail sits under the `thumb_` key with the client content type. -/
theorem thumbStage_image_ok (env : Env) (file : UploadFile) (bs1 : BlobStore)
    (fName ct : String) (bs2 : BlobStore) (t0 : String) (w h : Nat)
    (hts : thumbStage env file bs1 fName ct true = Except.ok (bs2, t0, w, h)) :
    ∃ fmt, file.content = FileContent.image fmt w h ∧
      env.putThumbOk = true ∧
      t0 = thumbPre ++ fName ∧
      bs2 = bput bs1 (thumbPre ++ fName) ct
        (FileContent.image "png" (resizeDims w h).1 (resizeDims w h).2) := by
  cases hc : file.content with
  | image fmt w' h' =>
      simp only [thumbStage, processImage, hc, if_true] at hts
      cases hp : env.putThumbOk
      · simp [hp] at hts
      · rw [hp, if_neg (by decide)] at hts
        simp only [Except.ok.injEq, Prod.mk.injEq] at hts
        obtain ⟨hbs, ht0, rfl, rfl⟩ := hts
        exact ⟨fmt, rfl, rfl, ht0.symm, hbs.symm⟩
  | blob b =>
      simp [thumbStage, processImage, hc] at hts

/-- A raster extension is never a vector extension. -/
theorem image_not_vector (e : String) (h : inArray e imageExts = true) :
    inArray e vectorExts = false := by
  cases hv : inArray e vectorExts
  · rfl
  · rw [vector_not_image e hv] at h
    exact absurd h (by simp)

/-- Inversion of a successful store-and-record pipeline: the resolved name
was free in the metadata store, the record is built from the upload, and the
final blob store holds exactly the original (plus, for raster extensions,
the PNG thumbnail under the `thumb_` key). -/
theorem storeAndRecord_ok_inv (cfg : Config) (env : Env) (bs0 : BlobStore)
    (ms0 : MetaStore) (file : UploadFile) (fName : String) (m : MediaObject)
    (h : (storeAndRecord cfg env bs0 ms0 file fName).result = Except.ok m) :
    getMediaByFilename ms0 fName = none ∧
    m.filename = fName ∧ m.contentType = file.contentType ∧
    m.provider = cfg.provider ∧ m.id = ms0.nextId ∧
    (storeAndRecord cfg env bs0 ms0 file fName).media =
      ⟨m :: ms0.records, ms0.nextId + 1⟩ ∧
    (inArray (extOf file.filename) imageExts = true →
      ∃ fmt w h₁, file.content = FileContent.image fmt w h₁ ∧
        m.meta = [("width", w), ("height", h₁)] ∧
        m.thumbnailFilename = thumbPre ++ fName ∧
        (storeAndRecord cfg env bs0 ms0 file fName).blobs =
          bput (bput bs0 fName file.contentType file.content) (thumbPre ++ fName)
            file.contentType
            (FileContent.image "png" (resizeDims w h₁).1 (resizeDims w h₁).2)) ∧
    (inArray (extOf file.filename) imageExts = false →
      m.meta = [] ∧
      m.thumbnailFilename =
        (if inArray (extOf file.filename) vectorExts = true then fName else "") ∧
      (storeAndRecord cfg env bs0 ms0 file fName).blobs =
        bput bs0 fName file.contentType file.content) := by
  cases hput : env.putOriginalOk with
  | false =>
      rw [storeAndRecord, if_pos (by rw [hput])] at h
      simp at h
  | true =>
      have hne : ¬ env.putOriginalOk = false := by simp [hput]
      simp only [storeAndRecord, if_neg hne] at h ⊢
      split at h
      · simp at h
      · next bs2 t0 w h1 heq =>
          split at h
          · simp at h
          · next m' ms1 heq2 =>
              simp only [Except.ok.injEq] at h
              subst h
              -- extract the insert facts
              cases hik : env.insertOk with
              | false => rw [hik] at heq2; simp at heq2
              | true =>
                  rw [hik, if_pos rfl] at heq2
                  obtain ⟨hfree, hm, hms⟩ := insertMediaRec_some _ _ _ _ _ _ _ _ heq2
                  cases hIm : inArray (extOf file.filename) imageExts with
                  | false =>
                      rw [hIm] at heq
                      rw [thumbStage_not_image] at heq
                      simp only [Except.ok.injEq, Prod.mk.injEq] at heq
                      obtain ⟨hbs2, ht0, hw, hh1⟩ := heq
                      rw [hm]
                      refine ⟨hfree, rfl, rfl, rfl, rfl, by rw [hms, hm], ?_, ?_⟩
                      · intro hcon
                        exact absurd hcon (by simp)
                      · intro _
                        refine ⟨by simp [hIm], ?_, by rw [← hbs2]⟩
                        simp only [hIm, ← ht0]
                  | true =>
                      rw [hIm] at heq
                      obtain ⟨fmt, hc, hptok, ht0, hbs2⟩ :=
                        thumbStage_image_ok _ _ _ _ _ _ _ _ _ heq
                      have hvec : inArray (extOf file.filename) vectorExts = false :=
                        image_not_vector _ hIm
                      rw [hm]
                      refine ⟨hfree, rfl, rfl, rfl, rfl, by rw [hms, hm], ?_, ?_⟩
                      · intro _
                        refine ⟨fmt, w, h1, hc, by simp [hIm], ?_, ?_⟩
                        · simp [hvec, ht0]
                        · rw [hbs2]
                      · intro hcon
                        exact absurd hcon (by simp)

/-- Any failing store-and-record run leaves an empty blob store when the
initial blob store was empty and no cleanup delete fails: every error branch
after a successful original `Put` runs the deferred cleanup. -/
theorem storeAndRecord_err_no_blobs (cfg : Config) (env : Env) (bs0 : BlobStore)
    (ms0 : MetaStore) (file : UploadFile) (fName : String) (e : UploadError)
    (hdel : env.deleteFails = [])
    (hempty : ∀ k, blookup bs0 k = none)
    (herr : (storeAndRecord cfg env bs0 ms0 file fName).result = Except.error e) :
    ∀ k, blookup (storeAndRecord cfg env bs0 ms0 file fName).blobs k = none := by
  cases hput : env.putOriginalOk with
  | false =>
      rw [storeAndRecord, if_pos (by rw [hput])]
      exact hempty
  | true =>
      have hne : ¬ env.putOriginalOk = false := by simp [hput]
      simp only [storeAndRecord, if_neg hne] at herr ⊢
      split at herr
      · intro k
        rw [cleanupBlobs_lookup _ _ _ _ _ hdel]
        by_cases hk : k = fName
        · rw [if_pos hk]
        · rw [if_neg hk, if_neg (by simp), blookup_bput,
            if_neg (fun hh => hk hh.symm)]
          exact hempty k
      · next bs2 t0 w h1 heq =>
          split at herr
          · intro k
            cases hIm : inArray (extOf file.filename) imageExts with
            | false =>
                rw [hIm, thumbStage_not_image] at heq
                simp only [Except.ok.injEq, Prod.mk.injEq] at heq
                obtain ⟨hbs2, ht0, hw, hh1⟩ := heq
                by_cases hv : inArray (extOf file.filename) vectorExts = true
                · have htf : (if inArray (extOf file.filename) vectorExts = true
                      then fName else t0) = fName := if_pos hv
                  rw [htf, cleanupBlobs_lookup _ _ _ _ _ hdel, ← hbs2]
                  by_cases hk : k = fName
                  · rw [if_pos hk]
                  · rw [if_neg hk, if_neg (fun hh => hk hh.1), blookup_bput,
                      if_neg (fun hh => hk hh.symm)]
                    exact hempty k
                · have htf : (if inArray (extOf file.filename) vectorExts = true
                      then fName else t0) = "" := by rw [if_neg hv, ← ht0]
                  rw [htf, cleanupBlobs_lookup _ _ _ _ _ hdel, ← hbs2]
                  by_cases hk : k = fName
                  · rw [if_pos hk]
                  · rw [if_neg hk, if_neg (by simp), blookup_bput,
                      if_neg (fun hh => hk hh.symm)]
                    exact hempty k
            | true =>
                rw [hIm] at heq
                obtain ⟨fmt, hc, hptok, ht0, hbs2⟩ :=
                  thumbStage_image_ok _ _ _ _ _ _ _ _ _ heq
                have hvec : inArray (extOf file.filename) vectorExts = false :=
                  image_not_vector _ hIm
                have htf : (if inArray (extOf file.filename) vectorExts = true
                    then fName else t0) = thumbPre ++ fName := by
                  rw [hvec, if_neg (by simp), ht0]
                rw [htf, cleanupBlobs_lookup _ _ _ _ _ hdel, hbs2]
                by_cases hk : k = fName
                · rw [if_pos hk]
                · rw [if_neg hk]
                  by_cases hk2 : k = thumbPre ++ fName
                  · rw [if_pos ⟨hk2, thumbPre_append_ne_empty fName⟩]
                  · rw [if_neg (fun hh => hk2 hh.1), blookup_bput,
                      if_neg (fun hh => hk2 hh.symm), blookup_bput,
                      if_neg (fun hh => hk hh.symm)]
                    exact hempty k
          · next m' ms1 heq2 =>
              simp at herr

/-- Inversion of a successful upload at the handler level: the name was
resolved and the run is a store-and-record run on the resolved name. -/
theorem handleUploadMedia_ok_inv (cfg : Config) (env : Env) (bs0 : BlobStore)
    (ms0 : MetaStore) (file : UploadFile) (m : MediaObject)
    (h : (handleUploadMedia cfg env bs0 ms0 file).result = Except.ok m) :
    ∃ fName, resolveFilename env ms0 (makeFilename file.filename) = Except.ok fName ∧
      handleUploadMedia cfg env bs0 ms0 file =
        storeAndRecord cfg env bs0 ms0 file fName := by
  by_cases hif : inArray "*" cfg.extensions = false ∧
      inArray (extOf file.filename) cfg.extensions = false
  · rw [handleUploadMedia, if_pos hif] at h
    simp at h
  · rw [handleUploadMedia, if_neg hif] at h
    cases hr : resolveFilename env ms0 (makeFilename file.filename) with
    | error e =>
        rw [hr] at h
        simp at h
    | ok fName =>
        refine ⟨fName, rfl, ?_⟩
        rw [handleUploadMedia, if_neg hif, hr]

/-! ### C1: cleanup after a post-put failure -/

/-- C1: for every upload in which the original blob put succeeds and a later
step fails (thumbnail decode, thumbnail blob put, or metadata insert), the
handler deletes every blob it stored before returning the error: starting
from an empty blob store (and with no cleanup delete failing), no blob
remains under any key, in particular under the attempted storage keys. -/
theorem upload_failure_after_put_leaves_no_blobs (cfg : Config) (env : Env)
    (bs0 : BlobStore) (ms0 : MetaStore) (file : UploadFile) (e : UploadError)
    (hput : env.putOriginalOk = true)
    (hdel : env.deleteFails = [])
    (hempty : ∀ k, blookup bs0 k = none)
    (herr : (handleUploadMedia cfg env bs0 ms0 file).result = Except.error e)
    (he : e = UploadError.decodeFailure ∨ e = UploadError.thumbSaveFailure ∨
      e = UploadError.persistenceFailure) :
    ∀ k, blookup (handleUploadMedia cfg env bs0 ms0 file).blobs k = none := by
  by_cases hif : inArray "*" cfg.extensions = false ∧
      inArray (extOf file.filename) cfg.extensions = false
  · rw [handleUploadMedia, if_pos hif]
    exact hempty
  · rw [handleUploadMedia, if_neg hif] at herr ⊢
    cases hr : resolveFilename env ms0 (makeFilename file.filename) with
    | error e' =>
        exact hempty
    | ok fName =>
        rw [hr] at herr
        exact storeAndRecord_err_no_blobs cfg env bs0 ms0 file fName e hdel hempty herr

/-- Witness for C1: forcing the metadata insert to fail after `cat.png` and
its thumbnail were stored leaves zero blobs under both attempted keys. -/
theorem upload_failure_after_put_leaves_no_blobs_witness :
    blookup (handleUploadMedia cfgStar envNoInsert [] msEmpty fileCat).blobs
      "cat.png" = none ∧
    blookup (handleUploadMedia cfgStar envNoInsert [] msEmpty fileCat).blobs
      "thumb_cat.png" = none := by
  have h := upload_failure_after_put_leaves_no_blobs cfgStar envNoInsert [] msEmpty
    fileCat UploadError.persistenceFailure rfl rfl (fun _ => rfl) rfl
    (Or.inr (Or.inr rfl))
  exact ⟨h "cat.png", h "thumb_cat.png"⟩

/-! ### C7: extension allowlist -/

/-- C7: when the allowlist does not hold the wildcard and the lowercased
extension is not in it, the upload fails with `UnsupportedType` and both
stores are returned unchanged (no blob stored, no record created). -/
theorem unsupported_extension_rejected (cfg : Config) (env : Env) (bs0 : BlobStore)
    (ms0 : MetaStore) (file : UploadFile)
    (hstar : inArray "*" cfg.extensions = false)
    (hext : inArray (extOf file.filename) cfg.extensions = false) :
    handleUploadMedia cfg env bs0 ms0 file =
      ⟨Except.error UploadError.unsupportedType, bs0, ms0⟩ := by
  rw [handleUploadMedia, if_pos ⟨hstar, hext⟩]

/-- Witness for C7: uploading `notes.pdf` under allowlist `["png","jpg"]`
fails with `UnsupportedType` leaving both stores unchanged. -/
theorem unsupported_extension_rejected_witness :
    inArray "*" cfgPngJpg.extensions = false ∧
    inArray (extOf filePdf.filename) cfgPngJpg.extensions = false ∧
    handleUploadMedia cfgPngJpg envOk [] msEmpty filePdf =
      ⟨Except.error UploadError.unsupportedType, [], msEmpty⟩ :=
  ⟨by decide, by decide,
    unsupported_extension_rejected cfgPngJpg envOk [] msEmpty filePdf
      (by decide) (by decide)⟩

/-! ### C3: thumbnail dimensions -/

/-- Counterexample for C3: the claim says the thumbnail's own width equals
`min (T, W)`; for a 100×100 raster upload the generated thumbnail has width
250 (the image is upscaled), while `min thumbnailSize 100 = 100`. Also the
claimed height `round (T·H/W)` misses the 1-pixel floor: a 1000×1 image gets
height 1 although the rounded value is 0. -/
theorem thumbnail_width_not_min_counterexample :
    processImage fileGif =
      Except.ok (FileContent.image "png" 250 250, 100, 100) ∧
    (250 : Nat) ≠ min thumbnailSize 100 ∧
    processImage ⟨"wide.png", "image/png", FileContent.image "png" 1000 1⟩ =
      Except.ok (FileContent.image "png" 250 1, 1000, 1) ∧
    (2 * thumbnailSize * 1 + 1000) / (2 * 1000) = 0 := by
  refine ⟨rfl, by decide, rfl, by decide⟩

/-- C3 (amended): for every decodable raster upload of dimensions W×H with
W, H ≥ 1, the thumbnail is re-encoded as PNG with width exactly
`thumbnailSize` (250) — upscaling when W < 250 — and height
`max 1 (round (250·H/W))`, and the original dimensions are returned. -/
theorem processImage_resize_law (file : UploadFile) (fmt : String) (w h : Nat)
    (hc : file.content = FileContent.image fmt w h) (hw : 0 < w) (hh : 0 < h) :
    processImage file = Except.ok
      (FileContent.image "png" thumbnailSize
        (max 1 ((2 * thumbnailSize * h + w) / (2 * w))), w, h) := by
  simp only [processImage, hc]
  rw [resizeDims, if_neg (by omega)]

/-- Witness for C3 (amended): an 800×600 PNG yields a 250×188 PNG thumbnail
and reports the original 800×600. -/
theorem processImage_resize_law_witness :
    0 < 800 ∧ 0 < 600 ∧
    processImage fileCat = Except.ok
      (FileContent.image "png" thumbnailSize
        (max 1 ((2 * thumbnailSize * 600 + 800) / (2 * 800))), 800, 600) :=
  ⟨by decide, by decide,
    processImage_resize_law fileCat "png" 800 600 rfl (by decide) (by decide)⟩

/-! ### C9: retrieval with a non-positive id parameter -/

/-- C9: when the id parameter parses to a non-positive value (absent or
non-numeric parameters parse to 0), the handler neither fails with
`InvalidID` nor `NotFound`: it performs the paginated, filtered listing and
returns its results; a single-item fetch happens only for positive ids. -/
theorem get_media_nonpositive_id_lists (provider : String) (env : Env)
    (ms : MetaStore) (idParam q : String) (pg : Paging)
    (hid : atoi idParam ≤ 0) (hq : env.queryOk = true) :
    handleGetMedia provider env ms idParam q pg =
      Except.ok (GetResult.page (queryMedia ms provider q pg.offset pg.limit).1
        (queryMedia ms provider q pg.offset pg.limit).2 pg.page pg.perPage) := by
  simp only [handleGetMedia]
  rw [if_neg (by omega), if_neg (by simp [hq])]

/-- Witness for C9: a non-numeric id parameter (`"abc"`, parsing to 0)
returns the listing of the one-record store. -/
theorem get_media_nonpositive_id_lists_witness :
    atoi "abc" ≤ 0 ∧
    handleGetMedia "fs" envOk msCat "abc" "" ⟨1, 20, 0, 20⟩ =
      Except.ok (GetResult.page (queryMedia msCat "fs" "" 0 20).1
        (queryMedia msCat "fs" "" 0 20).2 1 20) :=
  ⟨by decide,
    get_media_nonpositive_id_lists "fs" envOk msCat "abc" "" ⟨1, 20, 0, 20⟩
      (by decide) rfl⟩

/-! ### C8: deletion contract -/

/-- C8: a non-positive parsed id fails with `InvalidID` leaving both stores
untouched; a successful deletion first removes the metadata record
(obtaining its filename) and then issues blob deletes for the filename and
for `thumb_ ++ filename` regardless of whether a thumbnail exists, with
blob-delete failures not surfaced (the result is `ok` for every environment,
including ones whose deletes fail). -/
theorem delete_media_contract (env : Env) (bs0 : BlobStore) (ms0 : MetaStore)
    (idParam : String) :
    (atoi idParam < 1 →
      handleDeleteMedia env bs0 ms0 idParam =
        ⟨Except.error MediaError.invalidID, bs0, ms0⟩) ∧
    (∀ fname ms1, 1 ≤ atoi idParam →
      deleteMediaRec ms0 (atoi idParam) = some (fname, ms1) →
      handleDeleteMedia env bs0 ms0 idParam =
        ⟨Except.ok true, bdeleteE env (bdeleteE env bs0 fname) (thumbPre ++ fname),
          ms1⟩) := by
  constructor
  · intro hlt
    simp only [handleDeleteMedia]
    rw [if_pos hlt]
  · intro fname ms1 hge hrec
    simp only [handleDeleteMedia]
    rw [if_neg (by omega), hrec]

/-- Witness for C8: a non-numeric id is rejected with `InvalidID`, and
deleting record 1 removes the row and issues both blob deletes (the
`thumb_` delete happening although it is keyed by convention). -/
theorem delete_media_contract_witness :
    handleDeleteMedia envOk bsCat msCat "abc" =
      ⟨Except.error MediaError.invalidID, bsCat, msCat⟩ ∧
    handleDeleteMedia envOk bsCat msCat "1" =
      ⟨Except.ok true, bdeleteE envOk (bdeleteE envOk bsCat "cat.png")
        (thumbPre ++ "cat.png"), ⟨[], 2⟩⟩ := by
  constructor
  · exact (delete_media_contract envOk bsCat msCat "abc").1 (by decide)
  · exact (delete_media_contract envOk bsCat msCat "1").2 "cat.png" ⟨[], 2⟩
      (by decide) (by decide)

/-! ### C2: collision suffixing -/

/-- Counterexample for C2: after two uploads of `report.png` have stored
`report.png` and `report_abcdef.png`, a third upload of the same raw
filename whose random draw is again `abcdef` produces the single-suffix
candidate `report_abcdef.png` without retrying the existence check — the
candidate equals a previously stored filename — and the upload then fails
at the metadata insert instead of storing a distinct name. Retrying the
existence check on the new candidate, as the claim describes (suffix supply
`abcdef` then `ghijkl`), would instead have produced the fresh name
`report_abcdef_ghijkl.png`. -/
theorem upload_collision_no_recheck_counterexample :
    resolveFilename envOk outReport2.media
      (makeFilename fileReport.filename) = Except.ok "report_abcdef.png" ∧
    (getMediaByFilename outReport2.media "report_abcdef.png").isSome = true ∧
    outReport3.result = Except.error UploadError.persistenceFailure ∧
    resolveFilenameSpec outReport2.media (makeFilename fileReport.filename)
      ["abcdef", "ghijkl"] = some "report_abcdef_ghijkl.png" :=
  ⟨rfl, rfl, rfl, rfl⟩

/-- C2 (amended): on a collision the code appends one 6-character random
suffix before the extension and does not re-check existence; every upload
that succeeds nonetheless stores a filename distinct from all previously
stored ones (the metadata store's uniqueness enforcement at insert), and
when the sanitized name collided, the stored name is exactly the
single-suffixed candidate. -/
theorem upload_single_suffix_distinct (cfg : Config) (env : Env) (bs0 : BlobStore)
    (ms0 : MetaStore) (file : UploadFile) (m : MediaObject)
    (hres : (handleUploadMedia cfg env bs0 ms0 file).result = Except.ok m) :
    getMediaByFilename ms0 m.filename = none ∧
    ((getMediaByFilename ms0 (makeFilename file.filename)).isSome = true →
      m.filename = appendSuffixToFilename (makeFilename file.filename)
        env.randomSuffix) := by
  obtain ⟨fName, hr, heq⟩ := handleUploadMedia_ok_inv cfg env bs0 ms0 file m hres
  rw [heq] at hres
  obtain ⟨hfree, hfn, _⟩ := storeAndRecord_ok_inv cfg env bs0 ms0 file fName m hres
  constructor
  · rw [hfn]
    exact hfree
  · intro hcol
    rcases resolveFilename_ok env ms0 _ _ hr with ⟨hno, _⟩ | ⟨_, hsfx⟩
    · rw [hcol] at hno
      exact absurd hno (by simp)
    · rw [hfn, hsfx]

/-- Witness for C2 (amended): the second upload of `report.png` stores
`report_abcdef.png`, which was absent beforehand and is the single-suffixed
candidate. -/
theorem upload_single_suffix_distinct_witness :
    getMediaByFilename outReport1.media "report_abcdef.png" = none ∧
    ("report_abcdef.png" : String) =
      appendSuffixToFilename (makeFilename fileReport.filename)
        envOk.randomSuffix := by
  have h := upload_single_suffix_distinct cfgStar envOk outReport1.blobs
    outReport1.media fileReport
    ⟨2, "report_abcdef.png", "thumb_report_abcdef.png", "image/png",
      [("width", 800), ("height", 600)], "fs"⟩ rfl
  exact ⟨h.1, h.2 rfl⟩

/-! ### C4: thumbnailFilename invariant -/

/-- C4: for every MediaObject created by a successful upload (of a
nonempty sanitized filename), `thumbnailFilename` is nonempty exactly when
the file's extension is in the supported raster or vector sets (the sets
that classify supported image types). -/
theorem thumbnailFilename_iff_image_ext (cfg : Config) (env : Env) (bs0 : BlobStore)
    (ms0 : MetaStore) (file : UploadFile) (m : MediaObject)
    (hname : makeFilename file.filename ≠ "")
    (hres : (handleUploadMedia cfg env bs0 ms0 file).result = Except.ok m) :
    (m.thumbnailFilename ≠ "" ↔
      (inArray (extOf file.filename) imageExts = true ∨
       inArray (extOf file.filename) vectorExts = true)) := by
  obtain ⟨fName, hr, heq⟩ := handleUploadMedia_ok_inv cfg env bs0 ms0 file m hres
  rw [heq] at hres
  obtain ⟨_, hfn, _, _, _, _, hImT, hImF⟩ :=
    storeAndRecord_ok_inv cfg env bs0 ms0 file fName m hres
  have hfne : fName ≠ "" := by
    rcases resolveFilename_ok env ms0 _ _ hr with ⟨_, hg⟩ | ⟨_, hg⟩
    · rw [hg]
      exact hname
    · rw [hg]
      exact appendSuffix_ne_empty _ _
  by_cases hIm : inArray (extOf file.filename) imageExts = true
  · obtain ⟨fmt, w, h₁, _, _, htn, _⟩ := hImT hIm
    rw [htn]
    exact ⟨fun _ => Or.inl hIm, fun _ => thumbPre_append_ne_empty fName⟩
  · have hImF' : inArray (extOf file.filename) imageExts = false := by
      simpa using hIm
    obtain ⟨_, htn, _⟩ := hImF hImF'
    rw [htn]
    by_cases hv : inArray (extOf file.filename) vectorExts = true
    · rw [if_pos hv]
      exact ⟨fun _ => Or.inr hv, fun _ => hfne⟩
    · rw [if_neg hv]
      constructor
      · intro hcon
        exact absurd rfl hcon
      · intro hor
        rcases hor with h1 | h1
        · exact absurd h1 hIm
        · exact absurd h1 hv

/-- Witness for C4: the `logo.svg` upload yields a record whose
`thumbnailFilename` is nonempty, matching its vector extension. -/
theorem thumbnailFilename_iff_image_ext_witness :
    ((⟨1, "logo.svg", "logo.svg", "image/svg+xml", [], "fs"⟩ :
        MediaObject).thumbnailFilename ≠ "" ↔
      (inArray (extOf fileSvg.filename) imageExts = true ∨
       inArray (extOf fileSvg.filename) vectorExts = true)) :=
  thumbnailFilename_iff_image_ext cfgStar envOk [] msEmpty fileSvg
    ⟨1, "logo.svg", "logo.svg", "image/svg+xml", [], "fs"⟩ (by decide) rfl

/-! ### C5: recorded metadata holds the original dimensions -/

/-- C5: for every raster upload that succeeds, the recorded metadata map is
exactly the original (pre-resize) width and height; for non-raster uploads
the metadata map is empty. -/
theorem upload_meta_original_dimensions (cfg : Config) (env : Env) (bs0 : BlobStore)
    (ms0 : MetaStore) (file : UploadFile) (m : MediaObject)
    (hres : (handleUploadMedia cfg env bs0 ms0 file).result = Except.ok m) :
    (∀ fmt w h, file.content = FileContent.image fmt w h →
      inArray (extOf file.filename) imageExts = true →
      m.meta = [("width", w), ("height", h)]) ∧
    (inArray (extOf file.filename) imageExts = false → m.meta = []) := by
  obtain ⟨fName, hr, heq⟩ := handleUploadMedia_ok_inv cfg env bs0 ms0 file m hres
  rw [heq] at hres
  obtain ⟨_, _, _, _, _, _, hImT, hImF⟩ :=
    storeAndRecord_ok_inv cfg env bs0 ms0 file fName m hres
  constructor
  · intro fmt w h hc hIm
    obtain ⟨fmt', w', h', hc', hmeta, _, _⟩ := hImT hIm
    rw [hc] at hc'
    injection hc' with hf hw hh
    rw [hmeta, ← hw, ← hh]
  · exact fun hIm => (hImF hIm).1

/-- Witness for C5: the 800×600 `cat.png` upload records width 800 and
height 600 — the original dimensions, not the 250×188 thumbnail's. -/
theorem upload_meta_original_dimensions_witness :
    (⟨1, "cat.png", "thumb_cat.png", "image/png",
      [("width", 800), ("height", 600)], "fs"⟩ : MediaObject).meta =
      [("width", 800), ("height", 600)] := by
  have h := upload_meta_original_dimensions cfgStar envOk [] msEmpty fileCat
    ⟨1, "cat.png", "thumb_cat.png", "image/png",
      [("width", 800), ("height", 600)], "fs"⟩ rfl
  exact h.1 "png" 800 600 rfl rfl

/-! ### C6: vector passthrough -/

/-- C6: a successful upload with a vector extension (svg) yields a record
whose `thumbnailFilename` equals `filename`, and the final blob store is the
initial one with exactly one put (the original) — no thumbnail derivative is
stored. -/
theorem vector_upload_reuses_original (cfg : Config) (env : Env) (bs0 : BlobStore)
    (ms0 : MetaStore) (file : UploadFile) (m : MediaObject)
    (hvec : inArray (extOf file.filename) vectorExts = true)
    (hres : (handleUploadMedia cfg env bs0 ms0 file).result = Except.ok m) :
    m.thumbnailFilename = m.filename ∧
    (handleUploadMedia cfg env bs0 ms0 file).blobs =
      bput bs0 m.filename file.contentType file.content := by
  obtain ⟨fName, hr, heq⟩ := handleUploadMedia_ok_inv cfg env bs0 ms0 file m hres
  rw [heq] at hres ⊢
  obtain ⟨_, hfn, _, _, _, _, _, hImF⟩ :=
    storeAndRecord_ok_inv cfg env bs0 ms0 file fName m hres
  have hIm : inArray (extOf file.filename) imageExts = false :=
    vector_not_image _ hvec
  obtain ⟨_, htn, hblobs⟩ := hImF hIm
  constructor
  · rw [htn, if_pos hvec, hfn]
  · rw [hblobs, hfn]

/-- Witness for C6: uploading `logo.svg` ends with `thumbnailFilename`
equal to `filename` and a blob store holding only the original put. -/
theorem vector_upload_reuses_original_witness :
    (⟨1, "logo.svg", "logo.svg", "image/svg+xml", [], "fs"⟩ :
        MediaObject).thumbnailFilename =
      (⟨1, "logo.svg", "logo.svg", "image/svg+xml", [], "fs"⟩ :
        MediaObject).filename ∧
    (handleUploadMedia cfgStar envOk [] msEmpty fileSvg).blobs =
      bput [] "logo.svg" fileSvg.contentType fileSvg.content := by
  have h := vector_upload_reuses_original cfgStar envOk [] msEmpty fileSvg
    ⟨1, "logo.svg", "logo.svg", "image/svg+xml", [], "fs"⟩ rfl rfl
  exact ⟨h.1, h.2⟩

/-! ### C10: thumbnail stored under the client-declared content type -/

/-- C10: for every raster upload that succeeds, the thumbnail blob is stored
under `thumb_ ++ storedName` with the client-declared content type of the
original upload, while its bytes are PNG-encoded regardless of the input
format — so the stored content type can disagree with the thumbnail's
actual encoding. -/
theorem thumbnail_stored_with_client_content_type (cfg : Config) (env : Env)
    (bs0 : BlobStore) (ms0 : MetaStore) (file : UploadFile) (m : MediaObject)
    (fmt : String) (w h : Nat)
    (hc : file.content = FileContent.image fmt w h)
    (hIm : inArray (extOf file.filename) imageExts = true)
    (hres : (handleUploadMedia cfg env bs0 ms0 file).result = Except.ok m) :
    blookup (handleUploadMedia cfg env bs0 ms0 file).blobs
        (thumbPre ++ m.filename) =
      some ⟨file.contentType,
        FileContent.image "png" (resizeDims w h).1 (resizeDims w h).2⟩ := by
  obtain ⟨fName, hr, heq⟩ := handleUploadMedia_ok_inv cfg env bs0 ms0 file m hres
  rw [heq] at hres ⊢
  obtain ⟨_, hfn, _, _, _, _, hImT, _⟩ :=
    storeAndRecord_ok_inv cfg env bs0 ms0 file fName m hres
  obtain ⟨fmt', w', h', hc', _, _, hblobs⟩ := hImT hIm
  rw [hc] at hc'
  injection hc' with hf hw hh
  rw [hblobs, hfn, blookup_bput, if_pos rfl, ← hw, ← hh]

/-- Witness for C10: the `anim.gif` upload stores its PNG-encoded thumbnail
under `thumb_anim.gif` with content type `image/gif`, which differs from
the PNG encoding of the bytes. -/
theorem thumbnail_stored_with_client_content_type_witness :
    blookup (handleUploadMedia cfgStar envOk [] msEmpty fileGif).blobs
        (thumbPre ++ "anim.gif") =
      some ⟨"image/gif",
        FileContent.image "png" (resizeDims 100 100).1 (resizeDims 100 100).2⟩ ∧
    fileGif.contentType ≠ "image/png" := by
  have h := thumbnail_stored_with_client_content_type cfgStar envOk [] msEmpty
    fileGif
    ⟨1, "anim.gif", "thumb_anim.gif", "image/gif",
      [("width", 100), ("height", 100)], "fs"⟩ "gif" 100 100 rfl rfl rfl
  exact ⟨h, by decide⟩

end Listmonk
